import Mathlib

/-!
Shallow embedding of the Obsidian-QuickerFolders plugin (src/src/main.ts):
the note-resolution algorithm (`resolveNote` and its helpers) and the
folder-click interaction gate, together with proofs of the specified
properties of both.
-/

namespace QuickerFolders

/-- The fallback strategies (`type Fallback` in main.ts). -/
inductive Fallback where
  | recent
  | alphabetical
  | none
deriving DecidableEq, Repr

/-- The empty-folder strategies (`type EmptyFolderBehavior` in main.ts). -/
inductive EmptyFolderBehavior where
  | recent_recursive
  | recent_index
  | none
deriving DecidableEq, Repr

/-- The plugin settings record (`interface QuickerFoldersSettings` in main.ts). -/
structure QuickerFoldersSettings where
  fallback : Fallback
  emptyFolderBehavior : EmptyFolderBehavior
  allowFolderToggle : Bool
  strictMatching : Bool
  keyword : String
deriving DecidableEq, Repr

/-- A vault note/file: basename, extension, last-modified timestamp
(`stat.mtime`), and whether the metadata cache reports a frontmatter
`index_note === true` marker for it. -/
structure TFile where
  basename : String
  extension : String
  mtime : Int
  indexMarker : Bool
deriving DecidableEq, Repr

/-- A vault entry: a file, or a folder with its name and its children in
file-explorer iteration order (`folder.children`). -/
inductive TAbstractFile where
  | file (f : TFile) : TAbstractFile
  | folder (name : String) (children : List TAbstractFile) : TAbstractFile
deriving Repr

/-- `TFile.name` in Obsidian: basename followed by the dot extension. -/
def fileName (f : TFile) : String := f.basename ++ "." ++ f.extension

/-- Stable insertion: `x` is placed before the first element `y` of the
already-sorted list with `le x y`; on ties the earlier original element
stays first, matching the stability of `Array.prototype.sort`. -/
def insertBy (le : TFile → TFile → Bool) (x : TFile) : List TFile → List TFile
  | [] => [x]
  | y :: ys => if le x y then x :: y :: ys else y :: insertBy le x ys

/-- Stable sort modelling `files.sort(cmp)` (stable per ES2019). -/
def sortBy (le : TFile → TFile → Bool) : List TFile → List TFile
  | [] => []
  | x :: xs => insertBy le x (sortBy le xs)

/-- Comparator for `sort((a, b) => b.stat.mtime - a.stat.mtime)`:
`a` precedes `b` when `a` is at least as recently modified. -/
def recencyLe (a b : TFile) : Bool := decide (b.mtime ≤ a.mtime)

/-- Lexicographic code-point comparison of character lists. -/
def charsLe : List Char → List Char → Bool
  | [], _ => true
  | _ :: _, [] => false
  | a :: as, b :: bs => if a < b then true else if b < a then false else charsLe as bs

/-- Modelled from the spec: the source sorts with
`(a, b) => a.name.localeCompare(b.name)`, and the host locale collation is
not part of this repository; §4.1 step 3 defines `alphabeticalFirst` as
locale-aware ascending name order, modelled here as code-point
lexicographic order on the full file name. -/
def nameLe (a b : TFile) : Bool := charsLe (fileName a).toList (fileName b).toList

/-- Whether the second character list starts with the first. -/
def charsStartWith : List Char → List Char → Bool
  | [], _ => true
  | _ :: _, [] => false
  | p :: ps, c :: cs => p == c && charsStartWith ps cs

/-- Whether the first character list occurs contiguously inside the second,
the semantics of `String.prototype.includes`. -/
def charsContain (pat l : List Char) : Bool :=
  match l with
  | [] => pat.isEmpty
  | _ :: cs => charsStartWith pat l || charsContain pat cs

/-- `getMarkdownFiles`: the direct children that are markdown files, in
child iteration order. -/
def getMarkdownFiles (children : List TAbstractFile) : List TFile :=
  children.filterMap fun c =>
    match c with
    | TAbstractFile.file f => if f.extension = "md" then some f else none
    | TAbstractFile.folder _ _ => none

/-- JavaScript `toLowerCase`, modelled as per-character lowercasing over the
string's character list (extensionally Lean's `String.toLower`, written so
that it evaluates by kernel reduction). -/
def lowerStr (s : String) : String := ⟨s.data.map Char.toLower⟩

/-- Modelled from the spec: the strict branch of `getIndexNote` calls the
host vault's path lookup on `folder.path + "/" + keyword + ".md"`, a lookup
whose implementation is not part of this repository; §4.1 step 2 specifies
it as looking up a direct child note whose name equals the (already
lowercased) keyword case-insensitively, with the conventional md extension. -/
def strictLookup (keyword : String) (files : List TFile) : Option TFile :=
  files.find? fun f => lowerStr f.basename == keyword

/-- `getIndexNote`: frontmatter-marker scan over direct markdown children
first, then strict or loose keyword matching. -/
def getIndexNote (s : QuickerFoldersSettings) (children : List TAbstractFile) :
    Option TFile :=
  match (getMarkdownFiles children).find? (fun f => f.indexMarker) with
  | some f => some f
  | none =>
    if s.strictMatching then
      strictLookup (lowerStr s.keyword) (getMarkdownFiles children)
    else
      match (getMarkdownFiles children).find?
          (fun f => lowerStr f.basename == lowerStr s.keyword) with
      | some exact => some exact
      | none =>
        (getMarkdownFiles children).find? fun f =>
          charsContain (lowerStr s.keyword).toList (lowerStr f.basename).toList

/-- `getAlphabeticalFirst`: first direct markdown child in ascending name order. -/
def getAlphabeticalFirst (children : List TAbstractFile) : Option TFile :=
  if (getMarkdownFiles children).length = 0 then none
  else (sortBy nameLe (getMarkdownFiles children)).head?

/-- `getMostRecent`: most recently modified direct markdown child. -/
def getMostRecent (children : List TAbstractFile) : Option TFile :=
  if (getMarkdownFiles children).length = 0 then none
  else (sortBy recencyLe (getMarkdownFiles children)).head?

/-- `getMarkdownFilesRecursive`: every markdown file in the whole subtree,
depth-first in child iteration order. -/
def getMarkdownFilesRecursive : List TAbstractFile → List TFile
  | [] => []
  | TAbstractFile.file f :: rest =>
      (if f.extension = "md" then [f] else []) ++ getMarkdownFilesRecursive rest
  | TAbstractFile.folder _ cs :: rest =>
      getMarkdownFilesRecursive cs ++ getMarkdownFilesRecursive rest

/-- `getMostRecentRecursive`: most recently modified markdown file of the
whole subtree. -/
def getMostRecentRecursive (children : List TAbstractFile) : Option TFile :=
  if (getMarkdownFilesRecursive children).length = 0 then none
  else (sortBy recencyLe (getMarkdownFilesRecursive children)).head?

/-- The list of index notes collected by `getMostRecentSubfolderIndex`:
for each immediate child folder, its own `getIndexNote` result. -/
def subfolderIndices (s : QuickerFoldersSettings) (children : List TAbstractFile) :
    List TFile :=
  children.filterMap fun c =>
    match c with
    | TAbstractFile.file _ => none
    | TAbstractFile.folder _ cs => getIndexNote s cs

/-- `getMostRecentSubfolderIndex`: the most recently modified of the
immediate child folders' own index notes. -/
def getMostRecentSubfolderIndex (s : QuickerFoldersSettings)
    (children : List TAbstractFile) : Option TFile :=
  if (subfolderIndices s children).length = 0 then none
  else (sortBy recencyLe (subfolderIndices s children)).head?

/-- The recursive fallback block of `resolveNote` (main.ts lines 229-241):
the fallback strategy applied to the full recursive file set. -/
def recursiveFallback (s : QuickerFoldersSettings) (children : List TAbstractFile) :
    Option TFile :=
  if (getMarkdownFilesRecursive children).length = 0 then none
  else
    match s.fallback with
    | Fallback.alphabetical => (sortBy nameLe (getMarkdownFilesRecursive children)).head?
    | Fallback.recent => (sortBy recencyLe (getMarkdownFilesRecursive children)).head?
    | Fallback.none => none

/-- `resolveNote`: the full layered resolution algorithm of main.ts
lines 210-252, on a folder's children. -/
def resolveNote (s : QuickerFoldersSettings) (children : List TAbstractFile) :
    Option TFile :=
  match getIndexNote s children with
  | some index => some index
  | none =>
    if (getMarkdownFiles children).length = 0 then
      match s.emptyFolderBehavior with
      | EmptyFolderBehavior.recent_recursive =>
        match getMostRecentRecursive children with
        | some r => some r
        | none => recursiveFallback s children
      | EmptyFolderBehavior.recent_index =>
        match getMostRecentSubfolderIndex s children with
        | some r => some r
        | none => recursiveFallback s children
      | EmptyFolderBehavior.none => none
    else
      match s.fallback with
      | Fallback.alphabetical => getAlphabeticalFirst children
      | Fallback.recent => getMostRecent children
      | Fallback.none => none

/-- The vault paths of every file in a subtree, each paired with its file,
relative to the base path of the containing folder. -/
def subtreePaths (base : String) : List TAbstractFile → List (String × TFile)
  | [] => []
  | TAbstractFile.file f :: rest =>
      (base ++ "/" ++ fileName f, f) :: subtreePaths base rest
  | TAbstractFile.folder nm cs :: rest =>
      subtreePaths (base ++ "/" ++ nm) cs ++ subtreePaths base rest

theorem mem_insertBy (le : TFile → TFile → Bool) (x a : TFile) (l : List TFile) :
    a ∈ insertBy le x l ↔ a = x ∨ a ∈ l := by
  induction l with
  | nil => simp [insertBy]
  | cons y ys ih =>
    by_cases h : le x y = true
    · simp [insertBy, h]
    · simp only [insertBy, if_neg h, List.mem_cons, ih]
      tauto

theorem mem_sortBy (le : TFile → TFile → Bool) (a : TFile) (l : List TFile) :
    a ∈ sortBy le l ↔ a ∈ l := by
  induction l with
  | nil => simp [sortBy]
  | cons x xs ih => simp [sortBy, mem_insertBy, ih]

theorem length_insertBy (le : TFile → TFile → Bool) (x : TFile) (l : List TFile) :
    (insertBy le x l).length = l.length + 1 := by
  induction l with
  | nil => simp [insertBy]
  | cons y ys ih =>
    by_cases h : le x y = true
    · simp [insertBy, h]
    · simp [insertBy, if_neg h, ih]

theorem length_sortBy (le : TFile → TFile → Bool) (l : List TFile) :
    (sortBy le l).length = l.length := by
  induction l with
  | nil => simp [sortBy]
  | cons x xs ih => simp [sortBy, length_insertBy, ih]

theorem pairwise_insertBy (le : TFile → TFile → Bool)
    (htot : ∀ a b, le a b = true ∨ le b a = true)
    (htrans : ∀ a b c, le a b = true → le b c = true → le a c = true)
    (x : TFile) (l : List TFile)
    (h : l.Pairwise (fun a b => le a b = true)) :
    (insertBy le x l).Pairwise (fun a b => le a b = true) := by
  induction l with
  | nil => simp [insertBy]
  | cons y ys ih =>
    rcases List.pairwise_cons.mp h with ⟨hy, hys⟩
    by_cases hxy : le x y = true
    · simp only [insertBy, if_pos hxy]
      refine List.pairwise_cons.mpr ⟨?_, h⟩
      intro g hg
      rcases List.mem_cons.mp hg with rfl | hg
      · exact hxy
      · exact htrans x y g hxy (hy g hg)
    · simp only [insertBy, if_neg hxy]
      refine List.pairwise_cons.mpr ⟨?_, ih hys⟩
      intro g hg
      rcases (mem_insertBy le x g ys).mp hg with rfl | hg
      · rcases htot g y with hgy | hyg
        · exact absurd hgy hxy
        · exact hyg
      · exact hy g hg

theorem pairwise_sortBy (le : TFile → TFile → Bool)
    (htot : ∀ a b, le a b = true ∨ le b a = true)
    (htrans : ∀ a b c, le a b = true → le b c = true → le a c = true)
    (l : List TFile) :
    (sortBy le l).Pairwise (fun a b => le a b = true) := by
  induction l with
  | nil => simp [sortBy]
  | cons x xs ih =>
    simp only [sortBy]
    exact pairwise_insertBy le htot htrans x _ ih

theorem mem_of_head? {l : List TFile} {f : TFile} (h : l.head? = some f) : f ∈ l := by
  cases l with
  | nil => simp at h
  | cons a t =>
    simp at h
    subst h
    exact List.mem_cons_self a t

theorem head?_sortBy_max (le : TFile → TFile → Bool)
    (htot : ∀ a b, le a b = true ∨ le b a = true)
    (htrans : ∀ a b c, le a b = true → le b c = true → le a c = true)
    (l : List TFile) (f : TFile) (h : (sortBy le l).head? = some f) :
    f ∈ l ∧ ∀ g ∈ l, le f g = true := by
  have hfmem : f ∈ l := (mem_sortBy le f l).mp (mem_of_head? h)
  refine ⟨hfmem, ?_⟩
  cases e : sortBy le l with
  | nil => rw [e] at h; simp at h
  | cons f' t =>
    rw [e] at h
    simp at h
    subst h
    have hp := pairwise_sortBy le htot htrans l
    rw [e] at hp
    rcases List.pairwise_cons.mp hp with ⟨hf, _⟩
    intro g hg
    have hgs : g ∈ sortBy le l := (mem_sortBy le g l).mpr hg
    rw [e] at hgs
    rcases List.mem_cons.mp hgs with rfl | hmem
    · rcases htot g g with hh | hh <;> exact hh
    · exact hf g hmem

theorem recencyLe_total (a b : TFile) : recencyLe a b = true ∨ recencyLe b a = true := by
  simp only [recencyLe, decide_eq_true_eq]
  omega

theorem recencyLe_trans (a b c : TFile) :
    recencyLe a b = true → recencyLe b c = true → recencyLe a c = true := by
  simp only [recencyLe, decide_eq_true_eq]
  omega

theorem charsLe_total : ∀ (l1 l2 : List Char),
    charsLe l1 l2 = true ∨ charsLe l2 l1 = true
  | [], [] => Or.inl rfl
  | [], _ :: _ => Or.inl rfl
  | _ :: _, [] => Or.inr rfl
  | a :: as, b :: bs => by
    by_cases hab : a < b
    · left
      simp [charsLe, hab]
    · by_cases hba : b < a
      · right
        simp [charsLe, hba]
      · rcases charsLe_total as bs with h | h
        · left
          simp [charsLe, hab, hba, h]
        · right
          simp [charsLe, hab, hba, h]

theorem charsLe_trans : ∀ (l1 l2 l3 : List Char), charsLe l1 l2 = true →
    charsLe l2 l3 = true → charsLe l1 l3 = true
  | [], _, _, _, _ => rfl
  | _ :: _, [], _, h1, _ => by simp [charsLe] at h1
  | _ :: _, _ :: _, [], _, h2 => by simp [charsLe] at h2
  | a :: as, b :: bs, c :: cs, h1, h2 => by
    by_cases hab : a < b
    · by_cases hbc : b < c
      · simp [charsLe, lt_trans hab hbc]
      · by_cases hcb : c < b
        · simp [charsLe, hbc, hcb] at h2
        · have hbceq : b = c := le_antisymm (not_lt.mp hcb) (not_lt.mp hbc)
          subst hbceq
          simp [charsLe, hab]
    · by_cases hba : b < a
      · simp [charsLe, hab, hba] at h1
      · have habeq : a = b := le_antisymm (not_lt.mp hba) (not_lt.mp hab)
        subst habeq
        simp only [charsLe, if_neg hab, if_neg hba] at h1
        by_cases hac : a < c
        · simp [charsLe, hac]
        · by_cases hca : c < a
          · simp [charsLe, hac, hca] at h2
          · simp only [charsLe, if_neg hac, if_neg hca] at h2 ⊢
            exact charsLe_trans as bs cs h1 h2

theorem nameLe_total (a b : TFile) : nameLe a b = true ∨ nameLe b a = true :=
  charsLe_total _ _

theorem nameLe_trans (a b c : TFile) :
    nameLe a b = true → nameLe b c = true → nameLe a c = true :=
  charsLe_trans _ _ _

theorem find?_append_decomp {α : Type} (p : α → Bool) (l1 l2 : List α) (f : α)
    (hf : p f = true) (h1 : ∀ g ∈ l1, p g = false) :
    (l1 ++ f :: l2).find? p = some f := by
  induction l1 with
  | nil => simp [List.find?_cons_of_pos _ hf]
  | cons a l ih =>
    have ha : p a = false := h1 a (List.mem_cons_self a l)
    rw [List.cons_append, List.find?_cons_of_neg _ (by simp [ha])]
    exact ih fun g hg => h1 g (List.mem_cons_of_mem a hg)

theorem find?_decomp {α : Type} (p : α → Bool) (l : List α) (f : α)
    (h : l.find? p = some f) :
    ∃ l1 l2, l = l1 ++ f :: l2 ∧ p f = true ∧ ∀ g ∈ l1, p g = false := by
  induction l with
  | nil => simp [List.find?] at h
  | cons a l ih =>
    by_cases ha : p a = true
    · rw [List.find?_cons_of_pos _ ha] at h
      simp at h
      subst h
      exact ⟨[], l, rfl, ha, by simp⟩
    · rw [List.find?_cons_of_neg _ (by simpa using ha)] at h
      rcases ih h with ⟨l1, l2, hl, hf, h1⟩
      refine ⟨a :: l1, l2, by simp [hl], hf, ?_⟩
      intro g hg
      rcases List.mem_cons.mp hg with rfl | hg
      · simpa using ha
      · exact h1 g hg

theorem mem_getMarkdownFiles (children : List TAbstractFile) (f : TFile) :
    f ∈ getMarkdownFiles children ↔
      TAbstractFile.file f ∈ children ∧ f.extension = "md" := by
  simp only [getMarkdownFiles, List.mem_filterMap]
  constructor
  · rintro ⟨c, hc, hm⟩
    cases c with
    | file g =>
      by_cases hg : g.extension = "md"
      · simp only [if_pos hg, Option.some.injEq] at hm
        subst hm
        exact ⟨hc, hg⟩
      · simp [if_neg hg] at hm
    | folder nm cs => simp at hm
  · rintro ⟨hc, hm⟩
    exact ⟨TAbstractFile.file f, hc, by simp [hm]⟩

theorem getIndexNote_mem (s : QuickerFoldersSettings) (children : List TAbstractFile)
    (f : TFile) (h : getIndexNote s children = some f) :
    f ∈ getMarkdownFiles children := by
  unfold getIndexNote at h
  split at h
  · rename_i x heq
    injection h with h2
    subst h2
    exact List.mem_of_find?_eq_some heq
  · split at h
    · unfold strictLookup at h
      exact List.mem_of_find?_eq_some h
    · split at h
      · rename_i x heq
        injection h with h2
        subst h2
        exact List.mem_of_find?_eq_some heq
      · exact List.mem_of_find?_eq_some h

theorem mem_recursive_of_mem_direct (children : List TAbstractFile) (f : TFile)
    (h : f ∈ getMarkdownFiles children) : f ∈ getMarkdownFilesRecursive children := by
  induction children using getMarkdownFilesRecursive.induct with
  | case1 => simp [getMarkdownFiles] at h
  | case2 g rest ih =>
    rcases (mem_getMarkdownFiles _ f).1 h with ⟨hmem, hext⟩
    rcases List.mem_cons.mp hmem with he | hmem2
    · have hfg : f = g := by injection he
      subst hfg
      simp [getMarkdownFilesRecursive, hext]
    · have hf : f ∈ getMarkdownFiles rest := (mem_getMarkdownFiles rest f).2 ⟨hmem2, hext⟩
      simp [getMarkdownFilesRecursive, ih hf]
  | case3 nm cs rest ih1 ih2 =>
    have : f ∈ getMarkdownFiles rest := by
      rcases (mem_getMarkdownFiles _ f).1 h with ⟨hmem, hext⟩
      rcases List.mem_cons.mp hmem with he | hmem2
      · cases he
      · exact (mem_getMarkdownFiles rest f).2 ⟨hmem2, hext⟩
    simp [getMarkdownFilesRecursive, ih2 this]

theorem mem_recursive_of_child (children : List TAbstractFile) (nm : String)
    (cs : List TAbstractFile) (f : TFile)
    (hc : TAbstractFile.folder nm cs ∈ children)
    (h : f ∈ getMarkdownFilesRecursive cs) :
    f ∈ getMarkdownFilesRecursive children := by
  induction children using getMarkdownFilesRecursive.induct with
  | case1 => simp at hc
  | case2 g rest ih =>
    rcases List.mem_cons.mp hc with he | hmem
    · cases he
    · simp [getMarkdownFilesRecursive, ih hmem]
  | case3 nm2 cs2 rest ih1 ih2 =>
    rcases List.mem_cons.mp hc with he | hmem
    · cases he
      simp [getMarkdownFilesRecursive, h]
    · simp [getMarkdownFilesRecursive, ih2 hmem]

theorem extension_of_mem_recursive (children : List TAbstractFile) (f : TFile)
    (h : f ∈ getMarkdownFilesRecursive children) : f.extension = "md" := by
  induction children using getMarkdownFilesRecursive.induct with
  | case1 => simp [getMarkdownFilesRecursive] at h
  | case2 g rest ih =>
    by_cases hg : g.extension = "md"
    · simp only [getMarkdownFilesRecursive, if_pos hg, List.singleton_append,
        List.mem_cons] at h
      rcases h with rfl | h
      · exact hg
      · exact ih h
    · simp only [getMarkdownFilesRecursive, if_neg hg, List.nil_append] at h
      exact ih h
  | case3 nm cs rest ih1 ih2 =>
    simp only [getMarkdownFilesRecursive, List.mem_append] at h
    rcases h with h | h
    · exact ih1 h
    · exact ih2 h

theorem mem_subfolderIndices (s : QuickerFoldersSettings)
    (children : List TAbstractFile) (f : TFile) :
    f ∈ subfolderIndices s children ↔
      ∃ nm cs, TAbstractFile.folder nm cs ∈ children ∧ getIndexNote s cs = some f := by
  simp only [subfolderIndices, List.mem_filterMap]
  constructor
  · rintro ⟨c, hc, hm⟩
    cases c with
    | file g => simp at hm
    | folder nm cs => exact ⟨nm, cs, hc, hm⟩
  · rintro ⟨nm, cs, hc, hm⟩
    exact ⟨TAbstractFile.folder nm cs, hc, hm⟩

theorem subtreePaths_extends : ∀ (base : String) (children : List TAbstractFile)
    (p : String × TFile), p ∈ subtreePaths base children →
    ∃ suffix, p.1 = base ++ "/" ++ suffix := by
  intro base children
  induction base, children using subtreePaths.induct with
  | case1 base =>
    intro p hp
    simp [subtreePaths] at hp
  | case2 base f rest ih =>
    intro p hp
    simp only [subtreePaths, List.mem_cons] at hp
    rcases hp with rfl | hp
    · exact ⟨fileName f, rfl⟩
    · exact ih p hp
  | case3 base nm cs rest ih1 ih2 =>
    intro p hp
    simp only [subtreePaths, List.mem_append] at hp
    rcases hp with hp | hp
    · rcases ih1 p hp with ⟨sfx, hs⟩
      refine ⟨nm ++ "/" ++ sfx, ?_⟩
      rw [hs]
      simp [String.append_assoc]
    · exact ih2 p hp

theorem mem_subtreePaths_of_mem_recursive : ∀ (children : List TAbstractFile)
    (f : TFile), f ∈ getMarkdownFilesRecursive children → ∀ (base : String),
    ∃ p, (p, f) ∈ subtreePaths base children := by
  intro children
  induction children using getMarkdownFilesRecursive.induct with
  | case1 =>
    intro f hf base
    simp [getMarkdownFilesRecursive] at hf
  | case2 g rest ih =>
    intro f hf base
    by_cases hg : g.extension = "md"
    · simp only [getMarkdownFilesRecursive, if_pos hg, List.singleton_append,
        List.mem_cons] at hf
      rcases hf with rfl | hf
      · exact ⟨base ++ "/" ++ fileName f, by simp [subtreePaths]⟩
      · rcases ih f hf base with ⟨p, hp⟩
        exact ⟨p, by simp [subtreePaths, hp]⟩
    · simp only [getMarkdownFilesRecursive, if_neg hg, List.nil_append] at hf
      rcases ih f hf base with ⟨p, hp⟩
      exact ⟨p, by simp [subtreePaths, hp]⟩
  | case3 nm cs rest ih1 ih2 =>
    intro f hf base
    simp only [getMarkdownFilesRecursive, List.mem_append] at hf
    rcases hf with hf | hf
    · rcases ih1 f hf (base ++ "/" ++ nm) with ⟨p, hp⟩
      exact ⟨p, by simp [subtreePaths, hp]⟩
    · rcases ih2 f hf base with ⟨p, hp⟩
      exact ⟨p, by simp [subtreePaths, hp]⟩

theorem recursiveFallback_mem (s : QuickerFoldersSettings)
    (children : List TAbstractFile) (f : TFile)
    (h : recursiveFallback s children = some f) :
    f ∈ getMarkdownFilesRecursive children := by
  unfold recursiveFallback at h
  split at h
  · simp at h
  · split at h
    · exact (mem_sortBy _ _ _).mp (mem_of_head? h)
    · exact (mem_sortBy _ _ _).mp (mem_of_head? h)
    · simp at h

theorem resolveNote_mem (s : QuickerFoldersSettings) (children : List TAbstractFile)
    (f : TFile) (h : resolveNote s children = some f) :
    f ∈ getMarkdownFilesRecursive children := by
  unfold resolveNote at h
  split at h
  · rename_i x heq
    injection h with h2
    subst h2
    exact mem_recursive_of_mem_direct _ _ (getIndexNote_mem _ _ _ heq)
  · split at h
    · split at h
      · split at h
        · rename_i r heq
          injection h with h2
          subst h2
          unfold getMostRecentRecursive at heq
          split at heq
          · simp at heq
          · exact (mem_sortBy _ _ _).mp (mem_of_head? heq)
        · exact recursiveFallback_mem _ _ _ h
      · split at h
        · rename_i r heq
          injection h with h2
          subst h2
          unfold getMostRecentSubfolderIndex at heq
          split at heq
          · simp at heq
          · have hmem := (mem_sortBy _ _ _).mp (mem_of_head? heq)
            rcases (mem_subfolderIndices s children r).mp hmem with ⟨nm, cs, hc, hidx⟩
            exact mem_recursive_of_child children nm cs r hc
              (mem_recursive_of_mem_direct cs r (getIndexNote_mem s cs r hidx))
        · exact recursiveFallback_mem _ _ _ h
      · simp at h
    · split at h
      · unfold getAlphabeticalFirst at h
        split at h
        · simp at h
        · exact mem_recursive_of_mem_direct _ _ ((mem_sortBy _ _ _).mp (mem_of_head? h))
      · unfold getMostRecent at h
        split at h
        · simp at h
        · exact mem_recursive_of_mem_direct _ _ ((mem_sortBy _ _ _).mp (mem_of_head? h))
      · simp at h

theorem find?_marker_none (children : List TAbstractFile)
    (hnm : ∀ f ∈ getMarkdownFiles children, f.indexMarker = false) :
    (getMarkdownFiles children).find? (fun f => f.indexMarker) = none := by
  rw [List.find?_eq_none]
  intro x hx
  simp [hnm x hx]

theorem getIndexNote_no_marker (s : QuickerFoldersSettings)
    (children : List TAbstractFile)
    (hnm : ∀ f ∈ getMarkdownFiles children, f.indexMarker = false) :
    getIndexNote s children =
      if s.strictMatching then
        strictLookup (lowerStr s.keyword) (getMarkdownFiles children)
      else
        match (getMarkdownFiles children).find?
            (fun f => lowerStr f.basename == lowerStr s.keyword) with
        | some exact => some exact
        | none =>
          (getMarkdownFiles children).find? fun f =>
            charsContain (lowerStr s.keyword).toList (lowerStr f.basename).toList := by
  unfold getIndexNote
  rw [find?_marker_none children hnm]

theorem getIndexNote_of_no_files (s : QuickerFoldersSettings)
    (children : List TAbstractFile) (h : getMarkdownFiles children = []) :
    getIndexNote s children = none := by
  unfold getIndexNote strictLookup
  rw [h]
  simp

theorem resolveNote_of_index (s : QuickerFoldersSettings)
    (children : List TAbstractFile) (f : TFile)
    (h : getIndexNote s children = some f) : resolveNote s children = some f := by
  unfold resolveNote
  rw [h]

/-- C1: Marker precedence. For every folder and every configuration, if a
direct child note carries the explicit index marker, the resolver returns
the first marker-bearing note in child iteration order, regardless of the
strictMatching, keyword, fallback and empty-folder settings. -/
theorem marker_precedence (s : QuickerFoldersSettings) (children : List TAbstractFile)
    (hm : ∃ f ∈ getMarkdownFiles children, f.indexMarker = true) :
    ∃ f l1 l2, getMarkdownFiles children = l1 ++ f :: l2 ∧ f.indexMarker = true ∧
      (∀ g ∈ l1, g.indexMarker = false) ∧ resolveNote s children = some f := by
  rcases hm with ⟨f0, hf0, hm0⟩
  cases hfind : (getMarkdownFiles children).find? (fun f => f.indexMarker) with
  | none =>
    rw [List.find?_eq_none] at hfind
    exact absurd hm0 (by simpa using hfind f0 hf0)
  | some f =>
    rcases find?_decomp _ _ _ hfind with ⟨l1, l2, hdec, hpf, hl1⟩
    refine ⟨f, l1, l2, hdec, hpf, hl1, ?_⟩
    apply resolveNote_of_index
    unfold getIndexNote
    rw [hfind]

/-- C2: Strict keyword matching. With no marker-bearing direct child note
and strictMatching on, the keyword step returns the first direct child
markdown note whose basename equals the keyword case-insensitively whenever
one exists, and anything it returns is such a direct child with the md
extension. -/
theorem strict_keyword_match (s : QuickerFoldersSettings)
    (children : List TAbstractFile)
    (hnm : ∀ f ∈ getMarkdownFiles children, f.indexMarker = false)
    (hs : s.strictMatching = true) :
    (∀ f l1 l2, getMarkdownFiles children = l1 ++ f :: l2 →
        lowerStr f.basename = lowerStr s.keyword →
        (∀ g ∈ l1, lowerStr g.basename ≠ lowerStr s.keyword) →
        resolveNote s children = some f) ∧
    (∀ f, getIndexNote s children = some f →
        f ∈ getMarkdownFiles children ∧ f.extension = "md" ∧
        lowerStr f.basename = lowerStr s.keyword) := by
  have hred := getIndexNote_no_marker s children hnm
  rw [if_pos hs] at hred
  constructor
  · intro f l1 l2 hdec hf hl1
    apply resolveNote_of_index
    rw [hred]
    unfold strictLookup
    rw [hdec]
    apply find?_append_decomp
    · simpa using hf
    · intro g hg
      simpa using hl1 g hg
  · intro f hidx
    rw [hred] at hidx
    unfold strictLookup at hidx
    have hmem := List.mem_of_find?_eq_some hidx
    have hp := List.find?_some hidx
    exact ⟨hmem, ((mem_getMarkdownFiles children f).1 hmem).2, by simpa using hp⟩

/-- C5: Loose keyword matching order. With no marker-bearing direct child
note and strictMatching off, the resolver returns the first direct child
note whose basename equals the keyword case-insensitively; only when no
exact match exists does it return the first direct child note, in child
iteration order, whose basename contains the keyword case-insensitively. -/
theorem loose_keyword_match (s : QuickerFoldersSettings)
    (children : List TAbstractFile)
    (hnm : ∀ f ∈ getMarkdownFiles children, f.indexMarker = false)
    (hs : s.strictMatching = false) :
    (∀ f l1 l2, getMarkdownFiles children = l1 ++ f :: l2 →
        lowerStr f.basename = lowerStr s.keyword →
        (∀ g ∈ l1, lowerStr g.basename ≠ lowerStr s.keyword) →
        resolveNote s children = some f) ∧
    ((∀ g ∈ getMarkdownFiles children, lowerStr g.basename ≠ lowerStr s.keyword) →
      ∀ f l1 l2, getMarkdownFiles children = l1 ++ f :: l2 →
        charsContain (lowerStr s.keyword).toList (lowerStr f.basename).toList = true →
        (∀ g ∈ l1,
          charsContain (lowerStr s.keyword).toList (lowerStr g.basename).toList = false) →
        resolveNote s children = some f) := by
  have hred := getIndexNote_no_marker s children hnm
  rw [if_neg (by simp [hs])] at hred
  constructor
  · intro f l1 l2 hdec hf hl1
    apply resolveNote_of_index
    rw [hred]
    have hfound : (getMarkdownFiles children).find?
        (fun f => lowerStr f.basename == lowerStr s.keyword) = some f := by
      rw [hdec]
      apply find?_append_decomp
      · simpa using hf
      · intro g hg
        simpa using hl1 g hg
    simp only [hfound]
  · intro hnoexact f l1 l2 hdec hf hl1
    apply resolveNote_of_index
    rw [hred]
    have hne : (getMarkdownFiles children).find?
        (fun f => lowerStr f.basename == lowerStr s.keyword) = none := by
      rw [List.find?_eq_none]
      intro x hx
      simpa using hnoexact x hx
    simp only [hne]
    rw [hdec]
    exact find?_append_decomp _ _ _ _ hf hl1

theorem resolveNote_empty_direct (s : QuickerFoldersSettings)
    (children : List TAbstractFile) (hdirect : getMarkdownFiles children = []) :
    resolveNote s children =
      match s.emptyFolderBehavior with
      | EmptyFolderBehavior.recent_recursive =>
        match getMostRecentRecursive children with
        | some r => some r
        | none => recursiveFallback s children
      | EmptyFolderBehavior.recent_index =>
        match getMostRecentSubfolderIndex s children with
        | some r => some r
        | none => recursiveFallback s children
      | EmptyFolderBehavior.none => none := by
  unfold resolveNote
  rw [getIndexNote_of_no_files s children hdirect, hdirect]
  simp

theorem recursiveFallback_spec (s : QuickerFoldersSettings)
    (children : List TAbstractFile) :
    (s.fallback = Fallback.none → recursiveFallback s children = none) ∧
    (getMarkdownFilesRecursive children = [] → recursiveFallback s children = none) ∧
    (s.fallback = Fallback.recent → getMarkdownFilesRecursive children ≠ [] →
      ∃ f, recursiveFallback s children = some f ∧
        f ∈ getMarkdownFilesRecursive children ∧
        ∀ g ∈ getMarkdownFilesRecursive children, g.mtime ≤ f.mtime) ∧
    (s.fallback = Fallback.alphabetical → getMarkdownFilesRecursive children ≠ [] →
      ∃ f, recursiveFallback s children = some f ∧
        f ∈ getMarkdownFilesRecursive children ∧
        ∀ g ∈ getMarkdownFilesRecursive children, nameLe f g = true) := by
  refine ⟨?_, ?_, ?_, ?_⟩
  · intro hf
    unfold recursiveFallback
    split
    · rfl
    · rw [hf]
  · intro hr
    unfold recursiveFallback
    rw [hr]
    simp
  · intro hf hne
    unfold recursiveFallback
    rw [if_neg (by simpa using hne), hf]
    cases e : (sortBy recencyLe (getMarkdownFilesRecursive children)).head? with
    | none =>
      rw [List.head?_eq_none_iff] at e
      have hlen := length_sortBy recencyLe (getMarkdownFilesRecursive children)
      rw [e] at hlen
      simp only [List.length_nil] at hlen
      exact absurd (List.length_eq_zero.mp hlen.symm) hne
    | some f =>
      rcases head?_sortBy_max recencyLe recencyLe_total recencyLe_trans _ f e with
        ⟨hmem, hmax⟩
      exact ⟨f, rfl, hmem, fun g hg => by simpa [recencyLe] using hmax g hg⟩
  · intro hf hne
    unfold recursiveFallback
    rw [if_neg (by simpa using hne), hf]
    cases e : (sortBy nameLe (getMarkdownFilesRecursive children)).head? with
    | none =>
      rw [List.head?_eq_none_iff] at e
      have hlen := length_sortBy nameLe (getMarkdownFilesRecursive children)
      rw [e] at hlen
      simp only [List.length_nil] at hlen
      exact absurd (List.length_eq_zero.mp hlen.symm) hne
    | some f =>
      rcases head?_sortBy_max nameLe nameLe_total nameLe_trans _ f e with ⟨hmem, hmax⟩
      exact ⟨f, rfl, hmem, hmax⟩

/-- C3: Bounded subfolder-index recursion. For a folder with no direct child
notes under the recentIndexInSubfolders strategy, when the subfolder-index
step yields a note, the resolver returns it, it is the most recently
modified among the notes collected one per immediate child folder, and it
is a direct markdown child of one of the immediate child folders — never a
note from a grandchild folder or deeper. -/
theorem subfolder_index_bound (s : QuickerFoldersSettings)
    (children : List TAbstractFile) (f : TFile)
    (hdirect : getMarkdownFiles children = [])
    (hstrat : s.emptyFolderBehavior = EmptyFolderBehavior.recent_index)
    (h : getMostRecentSubfolderIndex s children = some f) :
    resolveNote s children = some f ∧
    f ∈ subfolderIndices s children ∧
    (∀ g ∈ subfolderIndices s children, g.mtime ≤ f.mtime) ∧
    ∃ nm cs, TAbstractFile.folder nm cs ∈ children ∧
      getIndexNote s cs = some f ∧ f ∈ getMarkdownFiles cs := by
  have hres : resolveNote s children = some f := by
    rw [resolveNote_empty_direct s children hdirect, hstrat, h]
  have hhead : (sortBy recencyLe (subfolderIndices s children)).head? = some f := by
    unfold getMostRecentSubfolderIndex at h
    split at h
    · simp at h
    · exact h
  rcases head?_sortBy_max recencyLe recencyLe_total recencyLe_trans _ f hhead with
    ⟨hmem, hmax⟩
  rcases (mem_subfolderIndices s children f).1 hmem with ⟨nm, cs, hc, hidx⟩
  exact ⟨hres, hmem, fun g hg => by simpa [recencyLe] using hmax g hg,
    nm, cs, hc, hidx, getIndexNote_mem s cs f hidx⟩

/-- C4: Fall-through to the recursive fallback. For a folder with no direct
child notes: the none strategy resolves to absent immediately; and when the
recentIndexInSubfolders or recentNoteRecursive strategy yields no note, the
resolver applies the fallback strategy to the full recursive note set —
mostRecent picks a greatest-timestamp note, alphabeticalFirst a first-name
note, none (or an empty subtree) yields absent. -/
theorem empty_folder_fallthrough (s : QuickerFoldersSettings)
    (children : List TAbstractFile)
    (hdirect : getMarkdownFiles children = []) :
    (s.emptyFolderBehavior = EmptyFolderBehavior.none →
      resolveNote s children = none) ∧
    ((s.emptyFolderBehavior = EmptyFolderBehavior.recent_recursive ∧
        getMostRecentRecursive children = none ∨
      s.emptyFolderBehavior = EmptyFolderBehavior.recent_index ∧
        getMostRecentSubfolderIndex s children = none) →
      resolveNote s children = recursiveFallback s children ∧
      (s.fallback = Fallback.none → resolveNote s children = none) ∧
      (s.fallback = Fallback.recent → getMarkdownFilesRecursive children ≠ [] →
        ∃ f, resolveNote s children = some f ∧
          f ∈ getMarkdownFilesRecursive children ∧
          ∀ g ∈ getMarkdownFilesRecursive children, g.mtime ≤ f.mtime) ∧
      (s.fallback = Fallback.alphabetical → getMarkdownFilesRecursive children ≠ [] →
        ∃ f, resolveNote s children = some f ∧
          f ∈ getMarkdownFilesRecursive children ∧
          ∀ g ∈ getMarkdownFilesRecursive children, nameLe f g = true) ∧
      (getMarkdownFilesRecursive children = [] → resolveNote s children = none)) := by
  have hstep := resolveNote_empty_direct s children hdirect
  constructor
  · intro h
    rw [hstep, h]
  · intro hcase
    have heq : resolveNote s children = recursiveFallback s children := by
      rcases hcase with ⟨hb, hn⟩ | ⟨hb, hn⟩ <;> rw [hstep, hb, hn]
    rcases recursiveFallback_spec s children with ⟨h1, h2, h3, h4⟩
    refine ⟨heq, ?_, ?_, ?_, ?_⟩
    · intro hf
      rw [heq]
      exact h1 hf
    · intro hf hne
      rcases h3 hf hne with ⟨f, he, hm, hx⟩
      exact ⟨f, by rw [heq]; exact he, hm, hx⟩
    · intro hf hne
      rcases h4 hf hne with ⟨f, he, hm, hx⟩
      exact ⟨f, by rw [heq]; exact he, hm, hx⟩
    · intro hr
      rw [heq]
      exact h2 hr

/-- C6: Empty subtree resolves to absent. A folder whose entire subtree
contains zero markdown notes resolves to absent under every configuration. -/
theorem empty_subtree_absent (s : QuickerFoldersSettings)
    (children : List TAbstractFile)
    (h : getMarkdownFilesRecursive children = []) :
    resolveNote s children = none := by
  have hdirect : getMarkdownFiles children = [] := by
    by_contra hne
    rcases List.exists_mem_of_ne_nil _ hne with ⟨f, hf⟩
    have hm := mem_recursive_of_mem_direct children f hf
    rw [h] at hm
    simp at hm
  have hfb : recursiveFallback s children = none :=
    (recursiveFallback_spec s children).2.1 h
  have hrr : getMostRecentRecursive children = none := by
    unfold getMostRecentRecursive
    rw [h]
    simp
  have hsub : subfolderIndices s children = [] := by
    rw [subfolderIndices, List.filterMap_eq_nil_iff]
    intro c hc
    cases c with
    | file g => rfl
    | folder nm cs =>
      have hcs : getMarkdownFiles cs = [] := by
        by_contra hne2
        rcases List.exists_mem_of_ne_nil _ hne2 with ⟨g, hg⟩
        have hm := mem_recursive_of_child children nm cs g hc
          (mem_recursive_of_mem_direct cs g hg)
        rw [h] at hm
        simp at hm
      exact getIndexNote_of_no_files s cs hcs
  have hri : getMostRecentSubfolderIndex s children = none := by
    unfold getMostRecentSubfolderIndex
    rw [hsub]
    simp
  rw [resolveNote_empty_direct s children hdirect]
  cases hb : s.emptyFolderBehavior
  · rw [hrr, hfb]
  · rw [hri, hfb]
  · rfl

/-- Outcome of the capture-phase click handler for one click event: the note
handed to the open-note effect, and whether the handler stopped the event's
propagation and default. -/
structure GateResult where
  opened : Option TFile
  clickSuppressed : Bool
deriving DecidableEq, Repr

/-- `clickHandler` (main.ts lines 145-172). `onFolderTitle` is whether the
event target lies inside a folder-title control, `onArrow` whether it lies
inside an expand-arrow sub-element, and `folder` is the result of looking
the title's data-path up in the vault: `some children` exactly when the
path is present and resolves to a live folder. -/
def clickHandler (s : QuickerFoldersSettings) (onFolderTitle onArrow : Bool)
    (folder : Option (List TAbstractFile)) : GateResult :=
  if !onFolderTitle then ⟨none, false⟩
  else
    match folder with
    | Option.none => ⟨none, false⟩
    | Option.some children =>
      ⟨if !onArrow then resolveNote s children else none,
       !s.allowFolderToggle && !onArrow⟩

/-- `preventToggleHandler` (lines 174-189): whether the pointer-phase
handler suppresses the event and sets the `blockToggle` flag. -/
def preventToggleHandler (s : QuickerFoldersSettings)
    (onFolderTitle onArrow : Bool) : Bool :=
  !s.allowFolderToggle && onFolderTitle && !onArrow

/-- The monkey-patched `setCollapsed` (lines 130-138): it is a no-op
(`none`) while the `blockToggle` flag is set, otherwise the original
collapse runs with its argument. -/
def setCollapsedPatched (blockToggle collapsed : Bool) : Option Bool :=
  if blockToggle then none else some collapsed

/-- Modelled from the spec: how the host delivers one user click on a folder
title is not part of this repository; per §4.2 the gate observes the
pointer-down and the click in the capture phase ahead of the host, the
host's own expand/collapse runs only if the click propagated past the gate,
and it goes through `setCollapsed` while the `blockToggle` flag set in the
pointer phase is still in force (the bounded timer resets the flag only
after the event settles). Returns the note handed to the open-note effect
and whether a visible toggle happens. -/
def clickInteraction (s : QuickerFoldersSettings) (onFolderTitle onArrow : Bool)
    (folder : Option (List TAbstractFile)) : Option TFile × Bool :=
  let blockFlag := preventToggleHandler s onFolderTitle onArrow
  let res := clickHandler s onFolderTitle onArrow folder
  (res.opened, !res.clickSuppressed && (setCollapsedPatched blockFlag true).isSome)

/-- C7: Toggle suppression. With `allowFolderToggle = false`, a click on a
folder title that is not on the expand arrow opens exactly the Resolver's
note and never produces a visible host toggle, while a click on the arrow
passes through and toggles under every configuration. -/
theorem toggle_suppression (s : QuickerFoldersSettings)
    (children : List TAbstractFile) (h : s.allowFolderToggle = false) :
    clickInteraction s true false (some children) = (resolveNote s children, false) ∧
    ∀ (s2 : QuickerFoldersSettings) (folder : Option (List TAbstractFile)),
      (clickInteraction s2 true true folder).2 = true := by
  constructor
  · simp [clickInteraction, clickHandler, preventToggleHandler, setCollapsedPatched, h]
  · intro s2 folder
    cases folder <;>
      simp [clickInteraction, clickHandler, preventToggleHandler, setCollapsedPatched]

/-- C8: Determinism. For a fixed folder snapshot and fixed configuration,
two calls to the resolver return the same result: the outcome is a function
of the folder contents and the configuration only. -/
theorem resolve_deterministic (s1 s2 : QuickerFoldersSettings)
    (c1 c2 : List TAbstractFile) (hs : s1 = s2) (hc : c1 = c2) :
    resolveNote s1 c1 = resolveNote s2 c2 := by
  subst hs
  subst hc
  rfl

/-- C9: Resolver totality. For every structurally valid folder tree and
every configuration, including any already-stored keyword string (shorter
than three characters or empty), the resolver yields either a note or
absent; misses are represented as `none`, never as an error. -/
theorem resolver_totality (fb : Fallback) (efb : EmptyFolderBehavior)
    (tog sm : Bool) (kw : String) (children : List TAbstractFile) :
    resolveNote ⟨fb, efb, tog, sm, kw⟩ children = Option.none ∨
      ∃ f, resolveNote ⟨fb, efb, tog, sm, kw⟩ children = Option.some f := by
  cases h : resolveNote ⟨fb, efb, tog, sm, kw⟩ children
  · exact Or.inl rfl
  · exact Or.inr ⟨_, rfl⟩

/-- C10: Result invariant. Whenever the resolver returns a note, that note
has the markdown extension and its vault path lies in the given folder's
subtree, extending the folder's own path. -/
theorem result_invariant (s : QuickerFoldersSettings)
    (children : List TAbstractFile) (base : String) (f : TFile)
    (h : resolveNote s children = some f) :
    f.extension = "md" ∧
    ∃ p, (p, f) ∈ subtreePaths base children ∧
      ∃ suffix, p = base ++ "/" ++ suffix := by
  have hmem := resolveNote_mem s children f h
  refine ⟨extension_of_mem_recursive children f hmem, ?_⟩
  rcases mem_subtreePaths_of_mem_recursive children f hmem base with ⟨p, hp⟩
  rcases subtreePaths_extends base children (p, f) hp with ⟨sfx, hs2⟩
  exact ⟨p, hp, sfx, hs2⟩

/-- Sample settings for the marker-precedence witness. -/
def w1s : QuickerFoldersSettings :=
  ⟨Fallback.none, EmptyFolderBehavior.none, true, true, "xyz"⟩

/-- Sample folder for the marker-precedence witness: the second and third
notes carry the marker. -/
def w1c : List TAbstractFile :=
  [TAbstractFile.file ⟨"a", "md", 1, false⟩,
   TAbstractFile.file ⟨"b", "md", 2, true⟩,
   TAbstractFile.file ⟨"c", "md", 3, true⟩]

theorem marker_precedence_witness :
    (∃ f ∈ getMarkdownFiles w1c, f.indexMarker = true) ∧
    ∃ f l1 l2, getMarkdownFiles w1c = l1 ++ f :: l2 ∧ f.indexMarker = true ∧
      (∀ g ∈ l1, g.indexMarker = false) ∧ resolveNote w1s w1c = some f :=
  ⟨by decide, marker_precedence w1s w1c (by decide)⟩

/-- Sample settings for the strict-matching witness: keyword differs from
the matching note's basename only by case. -/
def w2s : QuickerFoldersSettings :=
  ⟨Fallback.none, EmptyFolderBehavior.none, true, true, "Index"⟩

/-- Sample folder for the strict-matching witness. -/
def w2c : List TAbstractFile :=
  [TAbstractFile.file ⟨"notes", "md", 1, false⟩,
   TAbstractFile.file ⟨"INDEX", "md", 2, false⟩]

theorem strict_keyword_match_witness :
    (∀ f ∈ getMarkdownFiles w2c, f.indexMarker = false) ∧
    w2s.strictMatching = true ∧
    ((∀ f l1 l2, getMarkdownFiles w2c = l1 ++ f :: l2 →
        lowerStr f.basename = lowerStr w2s.keyword →
        (∀ g ∈ l1, lowerStr g.basename ≠ lowerStr w2s.keyword) →
        resolveNote w2s w2c = some f) ∧
     (∀ f, getIndexNote w2s w2c = some f →
        f ∈ getMarkdownFiles w2c ∧ f.extension = "md" ∧
        lowerStr f.basename = lowerStr w2s.keyword)) :=
  ⟨by decide, rfl, strict_keyword_match w2s w2c (by decide) rfl⟩

/-- Sample settings for the loose-matching witness. -/
def w5s : QuickerFoldersSettings :=
  ⟨Fallback.none, EmptyFolderBehavior.none, true, false, "index"⟩

/-- Sample folder for the loose-matching witness: a substring match comes
before an exact case-insensitive match in child order. -/
def w5c : List TAbstractFile :=
  [TAbstractFile.file ⟨"MyIndexNotes", "md", 1, false⟩,
   TAbstractFile.file ⟨"Index", "md", 2, false⟩]

theorem loose_keyword_match_witness :
    (∀ f ∈ getMarkdownFiles w5c, f.indexMarker = false) ∧
    w5s.strictMatching = false ∧
    ((∀ f l1 l2, getMarkdownFiles w5c = l1 ++ f :: l2 →
        lowerStr f.basename = lowerStr w5s.keyword →
        (∀ g ∈ l1, lowerStr g.basename ≠ lowerStr w5s.keyword) →
        resolveNote w5s w5c = some f) ∧
     ((∀ g ∈ getMarkdownFiles w5c, lowerStr g.basename ≠ lowerStr w5s.keyword) →
       ∀ f l1 l2, getMarkdownFiles w5c = l1 ++ f :: l2 →
         charsContain (lowerStr w5s.keyword).toList (lowerStr f.basename).toList = true →
         (∀ g ∈ l1,
           charsContain (lowerStr w5s.keyword).toList (lowerStr g.basename).toList = false) →
         resolveNote w5s w5c = some f)) :=
  ⟨by decide, rfl, loose_keyword_match w5s w5c (by decide) rfl⟩

/-- Sample settings for the subfolder-index witness. -/
def w3s : QuickerFoldersSettings :=
  ⟨Fallback.none, EmptyFolderBehavior.recent_index, true, false, "index"⟩

/-- Sample folder for the subfolder-index witness: two immediate subfolders,
each with its own index note, the second more recent. -/
def w3c : List TAbstractFile :=
  [TAbstractFile.folder "s1" [TAbstractFile.file ⟨"index", "md", 10, false⟩],
   TAbstractFile.folder "s2" [TAbstractFile.file ⟨"index", "md", 20, false⟩]]

theorem subfolder_index_bound_witness :
    getMarkdownFiles w3c = [] ∧
    w3s.emptyFolderBehavior = EmptyFolderBehavior.recent_index ∧
    getMostRecentSubfolderIndex w3s w3c = some ⟨"index", "md", 20, false⟩ ∧
    (resolveNote w3s w3c = some ⟨"index", "md", 20, false⟩ ∧
     (⟨"index", "md", 20, false⟩ : TFile) ∈ subfolderIndices w3s w3c ∧
     (∀ g ∈ subfolderIndices w3s w3c,
        g.mtime ≤ (⟨"index", "md", 20, false⟩ : TFile).mtime) ∧
     ∃ nm cs, TAbstractFile.folder nm cs ∈ w3c ∧
       getIndexNote w3s cs = some ⟨"index", "md", 20, false⟩ ∧
       (⟨"index", "md", 20, false⟩ : TFile) ∈ getMarkdownFiles cs) :=
  ⟨by decide, rfl, by decide,
   subfolder_index_bound w3s w3c ⟨"index", "md", 20, false⟩ (by decide) rfl (by decide)⟩

/-- Sample settings for the fall-through witness. -/
def w4s : QuickerFoldersSettings :=
  ⟨Fallback.recent, EmptyFolderBehavior.recent_index, true, false, "index"⟩

/-- Sample folder for the fall-through witness: no direct notes, a subfolder
with a note that matches no keyword. -/
def w4c : List TAbstractFile :=
  [TAbstractFile.folder "a" [TAbstractFile.file ⟨"n", "md", 5, false⟩]]

theorem empty_folder_fallthrough_witness :
    getMarkdownFiles w4c = [] ∧
    ((w4s.emptyFolderBehavior = EmptyFolderBehavior.none →
       resolveNote w4s w4c = none) ∧
     ((w4s.emptyFolderBehavior = EmptyFolderBehavior.recent_recursive ∧
         getMostRecentRecursive w4c = none ∨
       w4s.emptyFolderBehavior = EmptyFolderBehavior.recent_index ∧
         getMostRecentSubfolderIndex w4s w4c = none) →
       resolveNote w4s w4c = recursiveFallback w4s w4c ∧
       (w4s.fallback = Fallback.none → resolveNote w4s w4c = none) ∧
       (w4s.fallback = Fallback.recent → getMarkdownFilesRecursive w4c ≠ [] →
         ∃ f, resolveNote w4s w4c = some f ∧
           f ∈ getMarkdownFilesRecursive w4c ∧
           ∀ g ∈ getMarkdownFilesRecursive w4c, g.mtime ≤ f.mtime) ∧
       (w4s.fallback = Fallback.alphabetical → getMarkdownFilesRecursive w4c ≠ [] →
         ∃ f, resolveNote w4s w4c = some f ∧
           f ∈ getMarkdownFilesRecursive w4c ∧
           ∀ g ∈ getMarkdownFilesRecursive w4c, nameLe f g = true) ∧
       (getMarkdownFilesRecursive w4c = [] → resolveNote w4s w4c = none))) :=
  ⟨by decide, empty_folder_fallthrough w4s w4c (by decide)⟩

/-- Sample settings for the empty-subtree witness. -/
def w6s : QuickerFoldersSettings :=
  ⟨Fallback.recent, EmptyFolderBehavior.recent_recursive, true, false, "index"⟩

/-- Sample folder for the empty-subtree witness: its only note-shaped entry
is a non-markdown file inside a subfolder. -/
def w6c : List TAbstractFile :=
  [TAbstractFile.folder "a" [TAbstractFile.file ⟨"pic", "png", 3, false⟩]]

theorem empty_subtree_absent_witness :
    getMarkdownFilesRecursive w6c = [] ∧ resolveNote w6s w6c = none := by
  have h : getMarkdownFilesRecursive w6c = [] := by
    simp [w6c, getMarkdownFilesRecursive]
  exact ⟨h, empty_subtree_absent w6s w6c h⟩

/-- Sample settings for the toggle-suppression witness. -/
def w7s : QuickerFoldersSettings :=
  ⟨Fallback.recent, EmptyFolderBehavior.recent_index, false, false, "index"⟩

/-- Sample folder for the toggle-suppression witness. -/
def w7c : List TAbstractFile := [TAbstractFile.file ⟨"index", "md", 1, false⟩]

theorem toggle_suppression_witness :
    w7s.allowFolderToggle = false ∧
    (clickInteraction w7s true false (some w7c) = (resolveNote w7s w7c, false) ∧
     ∀ (s2 : QuickerFoldersSettings) (folder : Option (List TAbstractFile)),
       (clickInteraction s2 true true folder).2 = true) :=
  ⟨rfl, toggle_suppression w7s w7c rfl⟩

/-- Sample settings for the determinism witness. -/
def w8s : QuickerFoldersSettings :=
  ⟨Fallback.alphabetical, EmptyFolderBehavior.recent_index, true, false, "index"⟩

/-- Sample folder for the determinism witness. -/
def w8c : List TAbstractFile :=
  [TAbstractFile.file ⟨"b", "md", 2, false⟩, TAbstractFile.file ⟨"a", "md", 1, false⟩]

theorem resolve_deterministic_witness :
    w8s = w8s ∧ w8c = w8c ∧ resolveNote w8s w8c = resolveNote w8s w8c :=
  ⟨rfl, rfl, resolve_deterministic w8s w8s w8c w8c rfl rfl⟩

/-- Sample settings for the result-invariant witness. -/
def w10s : QuickerFoldersSettings :=
  ⟨Fallback.recent, EmptyFolderBehavior.none, true, false, "index"⟩

/-- Sample folder for the result-invariant witness. -/
def w10c : List TAbstractFile := [TAbstractFile.file ⟨"index", "md", 7, false⟩]

theorem result_invariant_witness :
    resolveNote w10s w10c = some ⟨"index", "md", 7, false⟩ ∧
    ((⟨"index", "md", 7, false⟩ : TFile).extension = "md" ∧
     ∃ p, (p, (⟨"index", "md", 7, false⟩ : TFile)) ∈ subtreePaths "Vault/Notes" w10c ∧
       ∃ suffix, p = "Vault/Notes" ++ "/" ++ suffix) :=
  ⟨by decide, result_invariant w10s w10c "Vault/Notes" ⟨"index", "md", 7, false⟩ (by decide)⟩

end QuickerFolders
